import Mathlib

/-!
# Verification of the XML serializer (`src/ser/mod.rs`)

Shallow embedding of the serde-XML serializer.  The serializer walks a
serde value and appends XML-like text to a `Write` sink; we model the
sink as the `String` accumulated so far and thread it explicitly.  A
failing projection returns the error kind together with the sink
content at the moment of failure (the Rust code leaves the partial
output in the writer).

The repository ships only `src/ser/mod.rs`; the submodules `var.rs`
(Struct/Map projectors), `seq.rs` (Seq projector), `tuples.rs` (Tuple
projector), `helpers.rs` and the `error` module are referenced but not
included.  Their behaviour is modelled from the spec (sections 4.2-4.5
and 7) and the unit tests in `mod.rs`; every such definition carries a
doc comment starting with `Modelled from the spec:`.
-/

namespace SerdeXml

/-- Modelled from the spec: the error taxonomy of the missing `error`
module (spec section 7).  The source constructs
`ErrorKind::UnsupportedOperation(context)`, which the spec names
`UnsupportedShape(context)`; `FromUtf8Error` is the spec's
`InvalidText` (raised by `String::from_utf8` in `to_string`).  The
`Io` kind never arises with a byte-buffer sink (`Vec<u8>` writes are
infallible), so it is omitted. -/
inductive ErrorKind where
  | UnsupportedOperation (context : String)
  | FromUtf8Error
  deriving Repr, DecidableEq

/-- A primitive leaf value, as handled by `serialize_bool`,
`serialize_i8` .. `serialize_u64`, `serialize_char` and
`serialize_str`.  All integer widths format as their decimal `Display`
form, so they are collapsed into one `Int`-carrying constructor;
floats are omitted from the model (their `Display` form is not
relevant to any claim). -/
inductive Prim where
  | bool (b : Bool)
  | int (n : Int)
  | char (c : Char)
  | str (s : String)
  deriving Repr, DecidableEq

/-- The serde data model as notified to this `Serializer`: one
constructor per `serialize_*` entry point of the `ser::Serializer`
impl (composite constructors carry the full child list the upstream
visitor would feed to the corresponding projector). -/
inductive Value where
  | prim (p : Prim)
  | bytes (bs : List Nat)
  | none
  | some (v : Value)
  | unit
  | unitStruct (name : String)
  | unitVariant (name : String) (variantIndex : Nat) (variant : String)
  | newtypeStruct (name : String) (v : Value)
  | newtypeVariant (name : String) (variantIndex : Nat) (variant : String) (v : Value)
  | seq (lenHint : Option Nat) (elems : List Value)
  | tuple (elems : List Value)
  | tupleStruct (name : String) (elems : List Value)
  | tupleVariant (name : String) (variantIndex : Nat) (variant : String) (elems : List Value)
  | map (entries : List (Value × Value))
  | struct (name : String) (fields : List (String × Value))
  | structVariant (name : String) (variantIndex : Nat) (variant : String)
      (fields : List (String × Value))

/-- The textual `Display` form written by `write_primitive`
(`serialize_bool` writes `true`/`false` directly). -/
def Prim.text : Prim → String
  | .bool b => if b then "true" else "false"
  | .int n => toString n
  | .char c => String.singleton c
  | .str s => s

/-- Modelled from the spec: the self-describing-slot check of the
missing Seq/Tuple projectors (spec sections 3, 4.4, 4.5): a bare
Primitive or Bytes value in an unwrapped slot is rejected. -/
def isBare : Value → Bool
  | .prim _ => true
  | .bytes _ => true
  | _ => false

/-- Result of a projection step: the sink content on success, or the
error kind paired with the sink content at the failure point. -/
abbrev SRes := Except (ErrorKind × String) String

/-- Modelled from the spec: the textual tag name a map key renders to
(spec section 4.3): a string-like Primitive key renders as its textual
form; any other key shape is rejected (implementation-defined in the
spec; rejection is the choice that cannot corrupt tag nesting). -/
def keyText : Value → Option String
  | .prim p => Option.some p.text
  | _ => Option.none

mutual

/-- The root dispatcher: one case per `serialize_*` method of
`impl ser::Serializer for &mut Serializer<W>` in `src/ser/mod.rs`,
threading the sink. -/
def serValue : Value → String → SRes
  | .prim p, s => .ok (s ++ p.text)
  | .bytes _, s => .error (.UnsupportedOperation "serialize_bytes", s)
  | .none, s => .ok s
  | .some v, s => serValue v s
  | .unit, s => .ok s
  | .unitStruct name, s =>
      -- `write_wrapped(name, ())`: the unit payload writes nothing
      .ok (s ++ "<" ++ name ++ ">" ++ "</" ++ name ++ ">")
  | .unitVariant _ _ variant, s => .ok (s ++ variant)
  | .newtypeStruct name v, s => writeWrapped name v s
  | .newtypeVariant _ _ variant v, s => writeWrapped variant v s
  | .seq _ elems, s => serElements elems s
  | .tuple elems, s => serElements elems s
  | .tupleStruct name elems, s =>
      -- `serialize_tuple_struct` writes `<name>`; the Tuple projector
      -- bound to `name` writes `</name>` on `end`
      match serElements elems (s ++ "<" ++ name ++ ">") with
      | .ok t => .ok (t ++ "</" ++ name ++ ">")
      | .error e => .error e
  | .tupleVariant name _ _ elems, s =>
      -- `serialize_tuple_variant` writes `<name>` (the enum name, not
      -- the variant) and binds the Tuple projector to `name`
      match serElements elems (s ++ "<" ++ name ++ ">") with
      | .ok t => .ok (t ++ "</" ++ name ++ ">")
      | .error e => .error e
  | .map entries, s => serEntries entries s
  | .struct name fields, s =>
      -- `serialize_struct` writes `<name>`; the Struct projector
      -- bound to `name` writes `</name>` on `end`
      match serFields fields (s ++ "<" ++ name ++ ">") with
      | .ok t => .ok (t ++ "</" ++ name ++ ">")
      | .error e => .error e
  | .structVariant _ _ variant fields, s =>
      -- `serialize_struct_variant` writes `<variant>` and binds the
      -- Struct projector to `variant`
      match serFields fields (s ++ "<" ++ variant ++ ">") with
      | .ok t => .ok (t ++ "</" ++ variant ++ ">")
      | .error e => .error e

/-- Embeds `write_wrapped(tag, value)`: write `<tag>`, recurse into
the value, write `</tag>` (`src/ser/mod.rs` lines 103-108). -/
def writeWrapped (tag : String) (v : Value) (s : String) : SRes :=
  match serValue v (s ++ "<" ++ tag ++ ">") with
  | .ok t => .ok (t ++ "</" ++ tag ++ ">")
  | .error e => .error e

/-- Modelled from the spec: the element loop of the missing Seq and
Tuple projectors (`seq.rs`, `tuples.rs`; spec sections 4.4, 4.5): each
element recurses through the root dispatcher with no added wrapper,
and a bare Primitive/Bytes element fails with the unsupported-shape
error; `end` adds nothing here (the named tuple forms close their tag
in `serValue`). -/
def serElements : List Value → String → SRes
  | [], s => .ok s
  | v :: vs, s =>
      if isBare v then
        .error (.UnsupportedOperation "serializing a primitive or byte value in an unwrapped slot", s)
      else
        match serValue v s with
        | .ok t => serElements vs t
        | .error e => .error e

/-- Modelled from the spec: the field loop of the missing Struct
projector (`var.rs`; spec section 4.2): each field writes
`<field-name>`, recurses into the field value, writes
`</field-name>`. -/
def serFields : List (String × Value) → String → SRes
  | [], s => .ok s
  | (fname, v) :: fs, s =>
      match serValue v (s ++ "<" ++ fname ++ ">") with
      | .ok t => serFields fs (t ++ "</" ++ fname ++ ">")
      | .error e => .error e

/-- Modelled from the spec: the entry loop of the missing Map
projector (`var.rs`; spec section 4.3): each entry writes
`<key-text>`, recurses into the value, writes `</key-text>`; a key
that is not a string-like Primitive is rejected. -/
def serEntries : List (Value × Value) → String → SRes
  | [], s => .ok s
  | (k, v) :: es, s =>
      match keyText k with
      | Option.some kt =>
          match serValue v (s ++ "<" ++ kt ++ ">") with
          | .ok t => serEntries es (t ++ "</" ++ kt ++ ">")
          | .error e => .error e
      | Option.none => .error (.UnsupportedOperation "map key must be a string-like primitive", s)

end

/-- Prepend `p` to the sink component of a projection result (both on
success and on failure). -/
def shift (p : String) : SRes → SRes
  | .ok t => .ok (p ++ t)
  | .error (e, t) => .error (e, p ++ t)

/-- Every error a projection can produce is an `UnsupportedOperation`
(the spec's `UnsupportedShape`): no other failure exists below the
`to_string` entry point. -/
def okOrUnsupported : SRes → Prop
  | .ok _ => True
  | .error et => ∃ c, et.1 = .UnsupportedOperation c

/-! ## The byte-level entry points (`to_writer`, `to_string`)

The Rust entry points run against a `Vec<u8>` sink: every `write!`
appends the UTF-8 bytes of the formatted text fragment, and
`to_string` then re-validates the buffer with `String::from_utf8`.
We model the byte buffer as a `List Nat` and UTF-8 explicitly. -/

/-- UTF-8 encoding of one Unicode scalar value as a byte list. -/
def utf8EncodeCharNat (n : Nat) : List Nat :=
  if n < 0x80 then [n]
  else if n < 0x800 then [0xC0 + n / 0x40, 0x80 + n % 0x40]
  else if n < 0x10000 then
    [0xE0 + n / 0x1000, 0x80 + n / 0x40 % 0x40, 0x80 + n % 0x40]
  else
    [0xF0 + n / 0x40000, 0x80 + n / 0x1000 % 0x40, 0x80 + n / 0x40 % 0x40,
      0x80 + n % 0x40]

/-- UTF-8 encoding of a character list. -/
def utf8Bytes : List Char → List Nat
  | [] => []
  | c :: cs => utf8EncodeCharNat c.toNat ++ utf8Bytes cs

/-- UTF-8 encoding of a string: the bytes a `Vec<u8>` sink receives
when the string is written to it. -/
def utf8Str (s : String) : List Nat := utf8Bytes s.data

/-- Continuation-byte test for UTF-8 decoding. -/
def isCont (b : Nat) : Prop := 0x80 ≤ b ∧ b < 0xC0

instance (b : Nat) : Decidable (isCont b) := by unfold isCont; infer_instance

/-- Scalar value assembled from a two-byte UTF-8 sequence. -/
def seq2 (b0 b1 : Nat) : Nat := (b0 - 0xC0) * 0x40 + (b1 - 0x80)

/-- Scalar value assembled from a three-byte UTF-8 sequence. -/
def seq3 (b0 b1 b2 : Nat) : Nat :=
  (b0 - 0xE0) * 0x1000 + (b1 - 0x80) * 0x40 + (b2 - 0x80)

/-- Scalar value assembled from a four-byte UTF-8 sequence. -/
def seq4 (b0 b1 b2 b3 : Nat) : Nat :=
  (b0 - 0xF0) * 0x40000 + (b1 - 0x80) * 0x1000 + (b2 - 0x80) * 0x40 + (b3 - 0x80)

/-- Surrogate exclusion for decoded scalar values. -/
def notSurrogate (n : Nat) : Prop := n < 0xD800 ∨ 0xDFFF < n

instance (n : Nat) : Decidable (notSurrogate n) := by unfold notSurrogate; infer_instance

/-- Decode one UTF-8 scalar: given the lead byte and the remaining
bytes, return the scalar value and the bytes after it, validating
continuation bytes, overlong forms (via the per-length lower bound on
the decoded value), surrogates and the `0x110000` upper bound — the
checks `String::from_utf8` performs. -/
def utf8Step (b0 : Nat) (bs : List Nat) : Option (Nat × List Nat) :=
  if b0 < 0x80 then Option.some (b0, bs)
  else if b0 < 0xE0 then
    match bs with
    | b1 :: bs1 =>
      if 0xC0 ≤ b0 ∧ isCont b1 ∧ 0x80 ≤ seq2 b0 b1 then
        Option.some (seq2 b0 b1, bs1)
      else Option.none
    | [] => Option.none
  else if b0 < 0xF0 then
    match bs with
    | b1 :: b2 :: bs2 =>
      if isCont b1 ∧ isCont b2 ∧ 0x800 ≤ seq3 b0 b1 b2 ∧ notSurrogate (seq3 b0 b1 b2) then
        Option.some (seq3 b0 b1 b2, bs2)
      else Option.none
    | [_] => Option.none
    | [] => Option.none
  else
    match bs with
    | b1 :: b2 :: b3 :: bs3 =>
      if b0 < 0xF8 ∧ isCont b1 ∧ isCont b2 ∧ isCont b3 ∧
          0x10000 ≤ seq4 b0 b1 b2 b3 ∧ seq4 b0 b1 b2 b3 < 0x110000 then
        Option.some (seq4 b0 b1 b2 b3, bs3)
      else Option.none
    | [_, _] => Option.none
    | [_] => Option.none
    | [] => Option.none

/-- Fuel-driven UTF-8 decoding loop: one unit of fuel per decoded
scalar; the fuel is only a termination device (each scalar consumes at
least one byte, so byte count is always enough fuel). -/
def utf8DecodeGo : Nat → List Nat → Option (List Nat)
  | _, [] => Option.some []
  | 0, _ :: _ => Option.none
  | fuel + 1, b0 :: bs =>
    match utf8Step b0 bs with
    | Option.some (n, rest) => (utf8DecodeGo fuel rest).map (fun ns => n :: ns)
    | Option.none => Option.none

/-- UTF-8 decoding of a byte list into Unicode scalar values. -/
def utf8Decode (bs : List Nat) : Option (List Nat) := utf8DecodeGo bs.length bs

/-- Decoding a byte list as a string: the model of
`String::from_utf8` used by `to_string`. -/
def fromUtf8 (bs : List Nat) : Option String :=
  (utf8Decode bs).map (fun ns => String.mk (ns.map Char.ofNat))

/-- Embeds `to_writer` (`src/ser/mod.rs` lines 43-46) at the byte
level: `Serializer::new(writer)` borrows the byte sink and every
`write!` the serializer performs appends the UTF-8 bytes of a text
fragment, so the buffer after a run is the initial buffer plus the
UTF-8 encoding of the text the serializer produced (by `ser_shift`
that text is independent of the sink contents). -/
def to_writer (v : Value) (buf : List Nat) : Except (ErrorKind × List Nat) (List Nat) :=
  match serValue v "" with
  | .ok t => .ok (buf ++ utf8Str t)
  | .error (e, t) => .error (e, buf ++ utf8Str t)

/-- Embeds `to_string` (`src/ser/mod.rs` lines 72-80): allocate a
fresh buffer, run `to_writer` into it (`?` propagates its error),
then validate with `String::from_utf8` (whose failure converts to the
`FromUtf8Error` kind). -/
def to_string (v : Value) : Except ErrorKind String :=
  match to_writer v [] with
  | .ok buf =>
      match fromUtf8 buf with
      | Option.some s => .ok s
      | Option.none => .error .FromUtf8Error
  | .error (e, _) => .error e

/-- Stated from the spec's words (section 6, the refinement side of
C8): the string entry point is sugar over the sink entry point run
against a freshly allocated buffer, plus a validity check that the
buffer is well-formed as encodable text, returning the text. -/
def toStringSpec (v : Value) : Except ErrorKind String :=
  match to_writer v [] with
  | .ok buf =>
      match fromUtf8 buf with
      | Option.some s => .ok s
      | Option.none => .error .FromUtf8Error
  | .error (e, _) => .error e

/-- The serializer only appends: running any projection step on a sink
`p ++ s` produces `p ++` (the result of running it on `s`).  In
particular the text appended by a projection depends only on the value
projected, not on what is already in the sink. -/
theorem ser_shift :
    ∀ v s, ∀ p, serValue v (p ++ s) = shift p (serValue v s) := by
  apply serValue.induct
    (fun v s => ∀ p, serValue v (p ++ s) = shift p (serValue v s))
    (fun fs s => ∀ p, serFields fs (p ++ s) = shift p (serFields fs s))
    (fun es s => ∀ p, serEntries es (p ++ s) = shift p (serEntries es s))
    (fun l s => ∀ p, serElements l (p ++ s) = shift p (serElements l s))
    (fun tag v s => ∀ p, writeWrapped tag v (p ++ s) = shift p (writeWrapped tag v s))
  all_goals intros
  all_goals simp_all [serValue, serFields, serEntries, serElements, writeWrapped, shift,
    String.append_assoc]

/-- Corollary of `ser_shift` at base sink `""`: a projection into sink
`s` is `s ++` the projection into an empty sink. -/
theorem serValue_shift0 (v : Value) (s : String) :
    serValue v s = shift s (serValue v "") := by
  have h := ser_shift v "" s
  rwa [String.append_empty] at h

/-- The element loop only appends, proved from `ser_shift` by
induction on the element list. -/
theorem serElements_shift (l : List Value) :
    ∀ s p, serElements l (p ++ s) = shift p (serElements l s) := by
  induction l with
  | nil => intro s p; simp [serElements, shift]
  | cons v vs ih =>
    intro s p
    by_cases hb : isBare v
    · simp [serElements, hb, shift]
    · simp only [serElements, hb, Bool.false_eq_true, if_false]
      rw [ser_shift v s p]
      cases hv : serValue v s with
      | ok t => simp [shift, ih]
      | error e => cases e; simp [shift]

/-- Corollary of `serElements_shift` at base sink `""`. -/
theorem serElements_shift0 (l : List Value) (s : String) :
    serElements l s = shift s (serElements l "") := by
  have h := serElements_shift l "" s
  rwa [String.append_empty] at h

/-- If a projection fails, the error kind is `UnsupportedOperation`. -/
theorem serValue_okOrUnsupported :
    ∀ v s, okOrUnsupported (serValue v s) := by
  apply serValue.induct
    (fun v s => okOrUnsupported (serValue v s))
    (fun fs s => okOrUnsupported (serFields fs s))
    (fun es s => okOrUnsupported (serEntries es s))
    (fun l s => okOrUnsupported (serElements l s))
    (fun tag v s => okOrUnsupported (writeWrapped tag v s))
  all_goals intros
  all_goals simp_all [serValue, serFields, serEntries, serElements, writeWrapped,
    okOrUnsupported]

/-- A sequence/tuple element list containing a bare primitive always
fails, and the failure is an `UnsupportedOperation`. -/
theorem serElements_hasPrim (l : List Value) :
    ∀ s, (∃ p, Value.prim p ∈ l) →
      ∃ c t, serElements l s = .error (.UnsupportedOperation c, t) := by
  induction l with
  | nil => intro s h; simp at h
  | cons v vs ih =>
    intro s h
    obtain ⟨p, hp⟩ := h
    by_cases hb : isBare v
    · exact ⟨"serializing a primitive or byte value in an unwrapped slot", s,
        by simp [serElements, hb]⟩
    · have hmem : Value.prim p ∈ vs := by
        rcases List.mem_cons.mp hp with heq | hmem
        · exact absurd (heq ▸ hb) (by simp [isBare])
        · exact hmem
      cases hv : serValue v s with
      | ok t =>
        obtain ⟨c, t', ht⟩ := ih t ⟨p, hmem⟩
        exact ⟨c, t', by simp [serElements, hb, hv, ht]⟩
      | error e =>
        have hk := serValue_okOrUnsupported v s
        rw [hv] at hk
        obtain ⟨c, hc⟩ := hk
        refine ⟨c, e.2, ?_⟩
        simp [serElements, hb, hv]
        exact Prod.ext hc rfl

/-- C1: for every sequence and every anonymous tuple that contains at
least one element whose shape is a bare Primitive, projection fails
with an `UnsupportedShape` (`UnsupportedOperation`) error, regardless
of the shapes of the other elements. -/
theorem seq_or_tuple_with_bare_primitive_fails
    (len : Option Nat) (elems : List Value) (s : String)
    (h : ∃ p, Value.prim p ∈ elems) :
    (∃ c t, serValue (Value.seq len elems) s =
        .error (.UnsupportedOperation c, t)) ∧
    (∃ c t, serValue (Value.tuple elems) s =
        .error (.UnsupportedOperation c, t)) := by
  obtain ⟨c, t, ht⟩ := serElements_hasPrim elems s h
  exact ⟨⟨c, t, by simpa [serValue] using ht⟩, ⟨c, t, by simpa [serValue] using ht⟩⟩

/-- Witness for C1: a sequence and a tuple `[Foo, 1]` (one zero-field
struct, one bare integer) both fail with `UnsupportedOperation`. -/
theorem seq_or_tuple_with_bare_primitive_fails_witness :
    (∃ p, Value.prim p ∈ [Value.unitStruct "Foo", Value.prim (Prim.int 1)]) ∧
    ((∃ c t, serValue (Value.seq Option.none [Value.unitStruct "Foo", Value.prim (Prim.int 1)]) "" =
        .error (.UnsupportedOperation c, t)) ∧
     (∃ c t, serValue (Value.tuple [Value.unitStruct "Foo", Value.prim (Prim.int 1)]) "" =
        .error (.UnsupportedOperation c, t))) :=
  ⟨⟨Prim.int 1, by simp⟩,
   seq_or_tuple_with_bare_primitive_fails Option.none
     [Value.unitStruct "Foo", Value.prim (Prim.int 1)] "" ⟨Prim.int 1, by simp⟩⟩

/-- C2: projecting `NewtypeWrapper(n, v)` writes exactly `<n>`,
followed by the projection of `v`, followed by `</n>` (on failure the
open tag and the partial projection of `v` are in the sink and the
error propagates unchanged). -/
theorem newtypeWrapper_projects_wrapped (n : String) (v : Value) (s : String) :
    serValue (Value.newtypeStruct n v) s =
      match serValue v "" with
      | .ok t => .ok (s ++ "<" ++ n ++ ">" ++ t ++ "</" ++ n ++ ">")
      | .error (e, t) => .error (e, s ++ "<" ++ n ++ ">" ++ t) := by
  have h := serValue_shift0 v (s ++ "<" ++ n ++ ">")
  simp only [serValue, writeWrapped, h]
  cases hv : serValue v "" with
  | ok t => simp [shift]
  | error e => cases e; simp [shift]

/-- Unfolds one struct projection: open tag, fields, close tag. -/
theorem serValue_struct_eq (name : String) (fields : List (String × Value)) (s : String) :
    serValue (Value.struct name fields) s =
      match serFields fields (s ++ "<" ++ name ++ ">") with
      | .ok t => .ok (t ++ "</" ++ name ++ ">")
      | .error e => .error e := by
  simp [serValue]

/-- Unfolds one field whose value is a primitive. -/
theorem serFields_cons_prim (fname : String) (p : Prim) (fs : List (String × Value))
    (s : String) :
    serFields ((fname, Value.prim p) :: fs) s =
      serFields fs (s ++ "<" ++ fname ++ ">" ++ p.text ++ "</" ++ fname ++ ">") := by
  simp [serFields, serValue]

/-- Unfolds the empty field list. -/
theorem serFields_nil (s : String) : serFields [] s = .ok s := by
  simp [serFields]

/-- C3: the `Person`/`name:"Bob"`/`age:42` struct projects to exactly
`<Person><name>Bob</name><age>42</age></Person>` (mirrors
`test_serialize_struct`). -/
theorem struct_person_example :
    serValue (Value.struct "Person"
        [("name", Value.prim (Prim.str "Bob")), ("age", Value.prim (Prim.int 42))]) "" =
      .ok "<Person><name>Bob</name><age>42</age></Person>" := by
  rw [serValue_struct_eq, serFields_cons_prim, serFields_cons_prim, serFields_nil]
  rfl

/-- C4: a unit variant writes exactly the bare variant name, with no
tags; the enum name and the variant index do not appear in the
output (the right-hand side mentions neither). -/
theorem unit_variant_writes_bare_variant_name
    (name : String) (idx : Nat) (variant : String) (s : String) :
    serValue (Value.unitVariant name idx variant) s = .ok (s ++ variant) := by
  simp [serValue]

/-- C5: `Some(v)` projects exactly as `v` does — same output, same
success or failure (`serialize_some` recurses directly). -/
theorem some_is_transparent (v : Value) (s : String) :
    serValue (Value.some v) s = serValue v s := by
  simp [serValue]

/-- C6: projecting a Bytes value fails with the unsupported-shape
error in any position, writing nothing to the sink for that value
(the sink in the error is exactly the incoming sink `s`). -/
theorem bytes_always_unsupported (bs : List Nat) (s : String) :
    serValue (Value.bytes bs) s =
      .error (.UnsupportedOperation "serialize_bytes", s) := by
  simp [serValue]

/-- C7: projection is a deterministic function of the value with no
hidden mutable state: there is a single result, determined by the
value alone, such that projecting into any sink appends exactly that
result — hence two runs into independent fresh sinks are
byte-identical. -/
theorem projection_deterministic_in_sink (v : Value) :
    ∃ out : SRes, ∀ s, serValue v s = shift s out :=
  ⟨serValue v "", fun s => serValue_shift0 v s⟩

/-- C9: a string value is written verbatim — the output is the sink
plus the string's characters unchanged, so `<`, `>` and `&` in string
content are not entity-escaped. -/
theorem strings_written_verbatim (str s : String) :
    serValue (Value.prim (Prim.str str)) s = .ok (s ++ str) := by
  simp [serValue, Prim.text]

/-- C10: a tuple variant wraps its elements in the enum's own name:
the right-hand side uses `name` (the enum) for both tags and mentions
neither the variant name nor the variant index. -/
theorem tuple_variant_wraps_with_enum_name
    (name : String) (idx : Nat) (variant : String) (elems : List Value) (s : String) :
    serValue (Value.tupleVariant name idx variant elems) s =
      match serElements elems "" with
      | .ok t => .ok (s ++ "<" ++ name ++ ">" ++ t ++ "</" ++ name ++ ">")
      | .error (e, t) => .error (e, s ++ "<" ++ name ++ ">" ++ t) := by
  have h := serElements_shift0 elems (s ++ "<" ++ name ++ ">")
  simp only [serValue, h]
  cases hv : serElements elems "" with
  | ok t => simp [shift]
  | error e => cases e; simp [shift]

/-- Every `Char` carries a valid Unicode scalar value (transfer of
`Char.valid` from `UInt32` to `Nat`). -/
theorem char_toNat_valid (c : Char) :
    c.toNat < 0xD800 ∨ (0xDFFF < c.toNat ∧ c.toNat < 0x110000) := by
  rcases c.valid with h | ⟨h1, h2⟩
  · left
    simpa [UInt32.lt_def, BitVec.lt_def, Char.toNat, UInt32.toNat] using h
  · right
    constructor
    · simpa [UInt32.lt_def, BitVec.lt_def, Char.toNat, UInt32.toNat] using h1
    · simpa [UInt32.lt_def, BitVec.lt_def, Char.toNat, UInt32.toNat] using h2

/-- Decoding a step never lengthens the remaining byte list. -/
theorem utf8Step_rest_le (b0 : Nat) (bs : List Nat) (n : Nat) (rest : List Nat)
    (h : utf8Step b0 bs = Option.some (n, rest)) : rest.length ≤ bs.length := by
  unfold utf8Step at h
  split at h
  · simp at h; simp [h.2.symm]
  · split at h
    · cases bs with
      | nil => simp at h
      | cons b1 bs1 =>
        simp only [] at h
        split at h
        · simp at h; simp [h.2.symm]
        · simp at h
    · split at h
      · cases bs with
        | nil => simp at h
        | cons b1 bs1 =>
          cases bs1 with
          | nil => simp at h
          | cons b2 bs2 =>
            simp only [] at h
            split at h
            · simp at h; simp [h.2.symm]; omega
            · simp at h
      · cases bs with
        | nil => simp at h
        | cons b1 bs1 =>
          cases bs1 with
          | nil => simp at h
          | cons b2 bs2 =>
            cases bs2 with
            | nil => simp at h
            | cons b3 bs3 =>
              simp only [] at h
              split at h
              · simp at h; simp [h.2.symm]; omega
              · simp at h

/-- The fuel of the decoding loop is irrelevant once it covers the
byte count (each scalar consumes at least one byte). -/
theorem utf8DecodeGo_fuel (fuel : Nat) :
    ∀ (fuel' : Nat) (bs : List Nat), bs.length ≤ fuel → bs.length ≤ fuel' →
      utf8DecodeGo fuel bs = utf8DecodeGo fuel' bs := by
  induction fuel with
  | zero =>
    intro fuel' bs h h'
    cases bs with
    | nil => cases fuel' <;> simp [utf8DecodeGo]
    | cons b0 bs => simp at h
  | succ k ih =>
    intro fuel' bs h h'
    cases bs with
    | nil => cases fuel' <;> simp [utf8DecodeGo]
    | cons b0 bs =>
      cases fuel' with
      | zero => simp at h'
      | succ k' =>
        simp only [utf8DecodeGo]
        cases hs : utf8Step b0 bs with
        | none => simp
        | some p =>
          obtain ⟨n, rest⟩ := p
          have hr := utf8Step_rest_le b0 bs n rest hs
          simp only []
          have he := ih k' rest (by simp at h; omega) (by simp at h'; omega)
          rw [he]

/-- Decoding the encoding of a valid scalar consumes exactly its
bytes and yields back the scalar. -/
theorem utf8Step_encode (n : Nat)
    (hv : n < 0xD800 ∨ (0xDFFF < n ∧ n < 0x110000)) (rest : List Nat) :
    ∃ b0 tail, utf8EncodeCharNat n = b0 :: tail ∧
      utf8Step b0 (tail ++ rest) = Option.some (n, rest) := by
  by_cases h1 : n < 0x80
  · refine ⟨n, [], by simp [utf8EncodeCharNat, h1], ?_⟩
    simp [utf8Step, h1]
  · by_cases h2 : n < 0x800
    · refine ⟨0xC0 + n / 0x40, [0x80 + n % 0x40], by simp [utf8EncodeCharNat, h1, h2], ?_⟩
      have c1 : ¬ (0xC0 + n / 0x40 < 0x80) := by omega
      have c2 : 0xC0 + n / 0x40 < 0xE0 := by omega
      have c3 : 0xC0 ≤ 0xC0 + n / 0x40 := by omega
      have c4 : isCont (0x80 + n % 0x40) := by unfold isCont; omega
      have c5 : seq2 (0xC0 + n / 0x40) (0x80 + n % 0x40) = n := by unfold seq2; omega
      have c6 : 0x80 ≤ n := by omega
      simp [utf8Step, c1, c2, c3, c4, c5, c6]
    · by_cases h3 : n < 0x10000
      · refine ⟨0xE0 + n / 0x1000, [0x80 + n / 0x40 % 0x40, 0x80 + n % 0x40],
          by simp [utf8EncodeCharNat, h1, h2, h3], ?_⟩
        have c1 : ¬ (0xE0 + n / 0x1000 < 0x80) := by omega
        have c2 : ¬ (0xE0 + n / 0x1000 < 0xE0) := by omega
        have c3 : 0xE0 + n / 0x1000 < 0xF0 := by omega
        have c4 : isCont (0x80 + n / 0x40 % 0x40) := by unfold isCont; omega
        have c5 : isCont (0x80 + n % 0x40) := by unfold isCont; omega
        have c6 : seq3 (0xE0 + n / 0x1000) (0x80 + n / 0x40 % 0x40) (0x80 + n % 0x40) = n := by
          unfold seq3; omega
        have c7 : 0x800 ≤ n := by omega
        have c8 : notSurrogate n := by unfold notSurrogate; omega
        simp [utf8Step, c1, c2, c3, c4, c5, c6, c7, c8]
      · have h4 : n < 0x110000 := by omega
        refine ⟨0xF0 + n / 0x40000,
          [0x80 + n / 0x1000 % 0x40, 0x80 + n / 0x40 % 0x40, 0x80 + n % 0x40],
          by simp [utf8EncodeCharNat, h1, h2, h3], ?_⟩
        have c1 : ¬ (0xF0 + n / 0x40000 < 0x80) := by omega
        have c2 : ¬ (0xF0 + n / 0x40000 < 0xE0) := by omega
        have c3 : ¬ (0xF0 + n / 0x40000 < 0xF0) := by omega
        have c4 : 0xF0 + n / 0x40000 < 0xF8 := by omega
        have c5 : isCont (0x80 + n / 0x1000 % 0x40) := by unfold isCont; omega
        have c6 : isCont (0x80 + n / 0x40 % 0x40) := by unfold isCont; omega
        have c7 : isCont (0x80 + n % 0x40) := by unfold isCont; omega
        have c8 : seq4 (0xF0 + n / 0x40000) (0x80 + n / 0x1000 % 0x40)
            (0x80 + n / 0x40 % 0x40) (0x80 + n % 0x40) = n := by
          unfold seq4; omega
        have c9 : 0x10000 ≤ n := by omega
        simp [utf8Step, c1, c2, c3, c4, c5, c6, c7, c8, c9, h4]

/-- Decoding peels off the encoding of one character. -/
theorem utf8Decode_encode_cons (c : Char) (bs : List Nat) :
    utf8Decode (utf8EncodeCharNat c.toNat ++ bs) =
      (utf8Decode bs).map (fun ns => c.toNat :: ns) := by
  obtain ⟨b0, tail, henc, hstep⟩ := utf8Step_encode c.toNat (char_toNat_valid c) bs
  unfold utf8Decode
  rw [henc]
  simp only [List.cons_append, List.length_cons]
  rw [utf8DecodeGo, hstep]
  have hlen : bs.length ≤ (tail ++ bs).length := by simp
  show Option.map (fun ns => c.toNat :: ns) (utf8DecodeGo (tail ++ bs).length bs) =
      Option.map (fun ns => c.toNat :: ns) (utf8DecodeGo bs.length bs)
  rw [utf8DecodeGo_fuel ((tail ++ bs).length) bs.length bs hlen le_rfl]

/-- UTF-8 decode is a left inverse of UTF-8 encode on character
lists. -/
theorem utf8Decode_utf8Bytes (cs : List Char) :
    utf8Decode (utf8Bytes cs) = Option.some (List.map Char.toNat cs) := by
  induction cs with
  | nil => simp [utf8Bytes, utf8Decode, utf8DecodeGo]
  | cons c cs ih =>
    rw [utf8Bytes, utf8Decode_encode_cons c (utf8Bytes cs), ih]
    simp

/-- Validating the UTF-8 encoding of a string succeeds and gives the
string back: the model of why `String::from_utf8` cannot fail on a
buffer the serializer produced. -/
theorem fromUtf8_utf8Str (s : String) : fromUtf8 (utf8Str s) = Option.some s := by
  simp [fromUtf8, utf8Str, utf8Decode_utf8Bytes, List.map_map, Function.comp_def,
    Char.ofNat_toNat]

/-- C8: `to_string` behaves exactly as `to_writer` run against a
fresh buffer followed by a UTF-8 validity check: it equals the
spec-side composition, and whenever `to_writer` succeeds the bytes
decode and `to_string` returns exactly the buffer's contents as a
string, while a `to_writer` failure propagates as the same error. -/
theorem to_string_refines_to_writer (v : Value) :
    to_string v = toStringSpec v ∧
    (match to_writer v [] with
     | .ok buf => ∃ s, fromUtf8 buf = Option.some s ∧ to_string v = .ok s
     | .error (e, _) => to_string v = .error e) := by
  refine ⟨rfl, ?_⟩
  cases hw : serValue v "" with
  | ok t =>
    have hb : to_writer v [] = .ok ([] ++ utf8Str t) := by simp [to_writer, hw]
    rw [hb]
    refine ⟨t, ?_, ?_⟩
    · simpa using fromUtf8_utf8Str t
    · simp [to_string, hb, fromUtf8_utf8Str t]
  | error e =>
    obtain ⟨ek, et⟩ := e
    have hb : to_writer v [] = .error (ek, [] ++ utf8Str et) := by simp [to_writer, hw]
    rw [hb]
    simp [to_string, hb]

end SerdeXml
